import Mathlib

/-!
Shallow embedding of two components of the `ray` RLlib excerpt:

* `rllib/algorithms/dqn/dqn_rainbow_rl_module.py`: the `DQNRainbowRLModule`
  wiring class (`setup`, the spec-list methods, `output_specs_train`).
* `rllib/connectors/common/batch_individual_items.py`: the
  `BatchIndividualItems.__call__` connector.

Python dicts are modelled as association lists kept in insertion order:
setting an existing key updates the value in place, setting a fresh key
appends at the end, `pop` removes the entry.  Failure paths of the Python
code (`raise NotImplementedError`, the `assert`, and the attribute/type
errors raised when a value does not have the shape the code expects) are
modelled with an `Except Err` result.
-/

namespace Rllib

/-! ### Column-name constants (values from `ray.rllib.policy.sample_batch`
and `dqn_rainbow_rl_module.py` / `sac_learner.py`). -/

def OBS : String := "obs"

def INFOS : String := "infos"

def ACTIONS : String := "actions"

def NEXT_OBS : String := "new_obs"

def T : String := "t"

def DEFAULT_POLICY_ID : String := "default_policy"

def QF_PREDS : String := "qf_preds"

def ATOMS : String := "atoms"

def QF_LOGITS : String := "qf_logits"

def QF_PROBS : String := "qf_probs"

def QF_TARGET_NEXT_PREDS : String := "qf_target_next_preds"

def QF_TARGET_NEXT_PROBS : String := "qf_target_next_probs"

/-! ### `DQNRainbowRLModule` (dqn_rainbow_rl_module.py)

The catalog-built networks (encoder, advantage head, value head) are opaque
framework objects; we model each as a record carrying which catalog builder
produced it and its `trainable` attribute (framework default: `true`).
The `epsilon` entry of the model-config dict is framework data we never
inspect, so it is a type parameter `E`. Attributes that `setup` assigns only
conditionally (`self.vf`, `self.vf_target`, `self.epsilon_schedule`,
`self.v_min`, `self.v_max`) are `Option`-valued: `none` means the attribute
was never created. -/

inductive NetKind where
  | encoder
  | afHead
  | vfHead
deriving DecidableEq, Repr

structure Network where
  kind : NetKind
  trainable : Bool
deriving DecidableEq, Repr

/-- `catalog.build_encoder(framework=...)`: a fresh encoder network. -/
def build_encoder : Network := ⟨NetKind.encoder, true⟩

/-- `catalog.build_af_head(framework=...)`: a fresh advantage-stream head. -/
def build_af_head : Network := ⟨NetKind.afHead, true⟩

/-- `catalog.build_vf_head(framework=...)`: a fresh value-stream head. -/
def build_vf_head : Network := ⟨NetKind.vfHead, true⟩

/-- `Scheduler(self.config.model_config_dict["epsilon"], framework=...)`. -/
structure Scheduler (E : Type) where
  schedule : E
  framework : String

/-- The relevant entries of `self.config.model_config_dict`. -/
structure ModelConfig (E : Type) where
  dueling : Bool
  noisy : Bool
  num_atoms : Nat
  v_min : Float
  v_max : Float
  epsilon : E

/-- The attribute state of a `DQNRainbowRLModule` after `setup`. -/
structure DQNRainbowRLModule (E : Type) where
  is_dueling : Bool
  uses_noisy : Bool
  num_atoms : Nat
  v_min : Option Float
  v_max : Option Float
  epsilon_schedule : Option (Scheduler E)
  encoder : Network
  target_encoder : Network
  af : Network
  vf : Option Network
  af_target : Network
  vf_target : Option Network

/-- `DQNRainbowRLModule.setup` (dqn_rainbow_rl_module.py, lines 31-78),
statement by statement: read the flags, build the epsilon scheduler unless
noisy layers are used, build encoder and target encoder, build the heads
(value heads only under the dueling flag), then flip `trainable` to `False`
on every target network that was built. -/
def setup {E : Type} (framework : String) (cfg : ModelConfig E) :
    DQNRainbowRLModule E :=
  let m : DQNRainbowRLModule E :=
    { is_dueling := cfg.dueling
      uses_noisy := cfg.noisy
      num_atoms := cfg.num_atoms
      v_min := if cfg.num_atoms > 1 then some cfg.v_min else none
      v_max := if cfg.num_atoms > 1 then some cfg.v_max else none
      epsilon_schedule :=
        if cfg.noisy then none else some ⟨cfg.epsilon, framework⟩
      encoder := build_encoder
      target_encoder := build_encoder
      af := build_af_head
      vf := if cfg.dueling then some build_vf_head else none
      af_target := build_af_head
      vf_target := if cfg.dueling then some build_vf_head else none }
  let m := { m with target_encoder := { m.target_encoder with trainable := false } }
  let m := { m with af_target := { m.af_target with trainable := false } }
  if m.is_dueling then
    { m with vf_target := m.vf_target.map fun n => { n with trainable := false } }
  else m

/-- `DQNRainbowRLModule.input_specs_exploration`. -/
def input_specs_exploration {E : Type} (_m : DQNRainbowRLModule E) : List String :=
  [OBS, T]

/-- `DQNRainbowRLModule.input_specs_inference`. -/
def input_specs_inference {E : Type} (_m : DQNRainbowRLModule E) : List String :=
  [OBS]

/-- `DQNRainbowRLModule.input_specs_train`. -/
def input_specs_train {E : Type} (_m : DQNRainbowRLModule E) : List String :=
  [OBS, ACTIONS, NEXT_OBS]

/-- `DQNRainbowRLModule.output_specs_exploration`. -/
def output_specs_exploration {E : Type} (_m : DQNRainbowRLModule E) : List String :=
  [ACTIONS]

/-- `DQNRainbowRLModule.output_specs_inference`. -/
def output_specs_inference {E : Type} (_m : DQNRainbowRLModule E) : List String :=
  [ACTIONS]

/-- `DQNRainbowRLModule.output_specs_train` (lines 119-133): the
distributional keys are spliced in only when `self.num_atoms > 1`. -/
def output_specs_train {E : Type} (m : DQNRainbowRLModule E) : List String :=
  [QF_PREDS, QF_TARGET_NEXT_PREDS] ++
    (if m.num_atoms > 1 then [ATOMS, QF_LOGITS, QF_TARGET_NEXT_PROBS] else [])

/-! #### Projection lemmas for `setup` -/

theorem setup_num_atoms {E : Type} (fw : String) (cfg : ModelConfig E) :
    (setup fw cfg).num_atoms = cfg.num_atoms := by
  unfold setup
  by_cases h : cfg.dueling <;> simp [h]

theorem setup_vf {E : Type} (fw : String) (cfg : ModelConfig E) :
    (setup fw cfg).vf = if cfg.dueling then some build_vf_head else none := by
  unfold setup
  by_cases h : cfg.dueling <;> simp [h]

theorem setup_vf_target {E : Type} (fw : String) (cfg : ModelConfig E) :
    (setup fw cfg).vf_target =
      if cfg.dueling then some ⟨NetKind.vfHead, false⟩ else none := by
  unfold setup
  by_cases h : cfg.dueling <;> simp [h, build_vf_head]

theorem setup_af {E : Type} (fw : String) (cfg : ModelConfig E) :
    (setup fw cfg).af = build_af_head := by
  unfold setup
  by_cases h : cfg.dueling <;> simp [h]

theorem setup_af_target {E : Type} (fw : String) (cfg : ModelConfig E) :
    (setup fw cfg).af_target = ⟨NetKind.afHead, false⟩ := by
  unfold setup
  by_cases h : cfg.dueling <;> simp [h, build_af_head]

theorem setup_target_encoder {E : Type} (fw : String) (cfg : ModelConfig E) :
    (setup fw cfg).target_encoder = ⟨NetKind.encoder, false⟩ := by
  unfold setup
  by_cases h : cfg.dueling <;> simp [h, build_encoder]

theorem setup_encoder {E : Type} (fw : String) (cfg : ModelConfig E) :
    (setup fw cfg).encoder = build_encoder := by
  unfold setup
  by_cases h : cfg.dueling <;> simp [h]

theorem setup_epsilon_schedule {E : Type} (fw : String) (cfg : ModelConfig E) :
    (setup fw cfg).epsilon_schedule =
      if cfg.noisy then none else some ⟨cfg.epsilon, fw⟩ := by
  unfold setup
  by_cases h : cfg.dueling <;> simp [h]

/-- C2: The training output spec of `DQNRainbowRLModule` contains the
distributional keys `"atoms"`, `"qf_logits"` and `"qf_target_next_probs"`
iff `num_atoms > 1`, and for every configuration it contains `"qf_preds"`
and `"qf_target_next_preds"`. -/
theorem c2_output_specs_train {E : Type} (fw : String) (cfg : ModelConfig E) :
    ((ATOMS ∈ output_specs_train (setup fw cfg) ∧
      QF_LOGITS ∈ output_specs_train (setup fw cfg) ∧
      QF_TARGET_NEXT_PROBS ∈ output_specs_train (setup fw cfg)) ↔
        cfg.num_atoms > 1) ∧
    QF_PREDS ∈ output_specs_train (setup fw cfg) ∧
    QF_TARGET_NEXT_PREDS ∈ output_specs_train (setup fw cfg) := by
  by_cases h : cfg.num_atoms > 1 <;>
    simp [output_specs_train, setup_num_atoms, h, ATOMS, QF_LOGITS, QF_PREDS,
      QF_TARGET_NEXT_PREDS, QF_TARGET_NEXT_PROBS]

/-- C4: `setup` builds the value head `self.vf` and the target value head
`self.vf_target` iff the dueling flag is set, while the advantage head and
its target copy are built for every configuration. -/
theorem c4_value_head_iff_dueling {E : Type} (fw : String) (cfg : ModelConfig E) :
    (setup fw cfg).vf.isSome = cfg.dueling ∧
    (setup fw cfg).vf_target.isSome = cfg.dueling ∧
    (setup fw cfg).af.kind = NetKind.afHead ∧
    (setup fw cfg).af_target.kind = NetKind.afHead := by
  refine ⟨?_, ?_, ?_, ?_⟩
  · rw [setup_vf]; by_cases h : cfg.dueling <;> simp [h]
  · rw [setup_vf_target]; by_cases h : cfg.dueling <;> simp [h]
  · rw [setup_af]; rfl
  · rw [setup_af_target]

/-- C5: `setup` builds a target copy of each component of the main network:
a target encoder always, a target advantage head always, and a target value
head exactly when the main network has a value head (dueling flag set). -/
theorem c5_target_copies {E : Type} (fw : String) (cfg : ModelConfig E) :
    (setup fw cfg).target_encoder.kind = NetKind.encoder ∧
    (setup fw cfg).af_target.kind = NetKind.afHead ∧
    (setup fw cfg).vf_target.isSome = (setup fw cfg).vf.isSome ∧
    (setup fw cfg).vf.isSome = cfg.dueling := by
  refine ⟨?_, ?_, ?_, ?_⟩
  · rw [setup_target_encoder]
  · rw [setup_af_target]
  · rw [setup_vf, setup_vf_target]; by_cases h : cfg.dueling <;> simp [h]
  · rw [setup_vf]; by_cases h : cfg.dueling <;> simp [h]

/-- C6: `setup` creates the epsilon-greedy exploration scheduler
`self.epsilon_schedule` iff the noisy-layers flag is not set. -/
theorem c6_epsilon_schedule_iff_not_noisy {E : Type} (fw : String)
    (cfg : ModelConfig E) :
    (setup fw cfg).epsilon_schedule.isSome = !cfg.noisy := by
  rw [setup_epsilon_schedule]
  by_cases h : cfg.noisy <;> simp [h]

/-- C8: after `setup`, every target network that was built
(`target_encoder`, `af_target`, and `vf_target` when dueling) has its
`trainable` attribute set to `False`.  `setup` is the only operation of the
module that writes any attribute: all other methods of the class are pure
readers of the module state, so no operation sets `trainable` back. -/
theorem c8_targets_not_trainable {E : Type} (fw : String) (cfg : ModelConfig E) :
    (setup fw cfg).target_encoder.trainable = false ∧
    (setup fw cfg).af_target.trainable = false ∧
    (setup fw cfg).vf_target.all (fun n => !n.trainable) = true := by
  refine ⟨?_, ?_, ?_⟩
  · rw [setup_target_encoder]
  · rw [setup_af_target]
  · rw [setup_vf_target]; by_cases h : cfg.dueling <;> simp [h]

/-! ### `BatchIndividualItems.__call__` (batch_individual_items.py)

The `data` argument is a Python dict from column names (strings) to values.
A value is either a plain list of items, an already-batched object (the
output of `batch(...)`, e.g. a numpy array), or a nested dict.  Nested dict
keys are either plain strings (column names inside a module's sub-dict) or
the one-element tuples `(eps_id,)` used by the episode-to-list mapping; both
key shapes are covered by `DKey`.  The item type `I` and the result type of
`ray.rllib.utils.spaces.space_utils.batch` (`B`) are opaque parameters, and
`batch` itself is passed in as an opaque function `batchF`. -/

/-- A key of a nested data dict: a plain string or a 1-tuple `(eps_id,)`. -/
inductive DKey where
  | str (s : String)
  | tup (eps_id : String)
deriving DecidableEq, Repr

abbrev Col := String

abbrev EpsId := String

/-- A value of the `data` dict (or of a nested dict inside it). -/
inductive Val (I B : Type) where
  | list (items : List I)
  | batched (b : B)
  | dict (entries : List (DKey × Val I B))

/-- The failure modes of `__call__`: the explicit `raise NotImplementedError`,
the `assert is_multi_agent`, and the attribute/type errors Python raises when
a value does not have the shape the code expects at that point. -/
inductive Err where
  | notImplemented
  | assertionError
  | typeError
deriving DecidableEq, Repr

def Val.isList {I B : Type} : Val I B → Bool
  | .list _ => true
  | _ => false

def Val.isDict {I B : Type} : Val I B → Bool
  | .dict _ => true
  | _ => false

def Val.isBatched {I B : Type} : Val I B → Bool
  | .batched _ => true
  | _ => false

/-! #### Python-dict operations on association lists -/

/-- Dict read: value of the first entry with key `k`. -/
def lookupA {α β : Type _} [DecidableEq α] (k : α) : List (α × β) → Option β
  | [] => none
  | p :: rest => if k = p.1 then some p.2 else lookupA k rest

/-- Dict write `d[k] = v`: update in place if present, else append. -/
def setA {α β : Type _} [DecidableEq α] (k : α) (v : β) :
    List (α × β) → List (α × β)
  | [] => [(k, v)]
  | p :: rest => if k = p.1 then (k, v) :: rest else p :: setA k v rest

/-- Dict removal `d.pop(k)` (the removal part). -/
def popA {α β : Type _} [DecidableEq α] (k : α) : List (α × β) → List (α × β)
  | [] => []
  | p :: rest => if k = p.1 then rest else p :: popA k rest

/-- Dict membership `k in d`. -/
def memA {α β : Type _} [DecidableEq α] (k : α) (l : List (α × β)) : Bool :=
  (lookupA k l).isSome

/-! #### The three per-column branches -/

/-- Lines 53-58: `for (eps_id,) in column_data.keys(): for item in
column_data[(eps_id,)]`.  Every key must be a 1-tuple and every value a
list, otherwise Python fails while unpacking/iterating. -/
def epsEntries {I B : Type} :
    List (DKey × Val I B) → Except Err (List (EpsId × List I))
  | [] => .ok []
  | (DKey.tup e, Val.list xs) :: rest => do
      let r ← epsEntries rest
      .ok ((e, xs) :: r)
  | _ => .error .typeError

/-- Lines 52-58: `list_to_be_batched`, the concatenation of all per-episode
lists in the order of the mapping's keys. -/
def concatItems {I : Type} (es : List (EpsId × List I)) : List I :=
  (es.map Prod.snd).flatten

/-- Lines 51-57: `memorized_map_structure` as built for the OBS column —
one `eps_id` entry per item, in the order the items are concatenated. -/
def obsStructure {I : Type} (es : List (EpsId × List I)) : List EpsId :=
  (es.map fun p => p.2.map fun _ => p.1).flatten

/-- Lines 37-39: inside a module's sub-dict, batch every value that is a
list, except under the `"infos"` key; leave everything else unchanged. -/
def marlModuleData {I B : Type} (batchF : List I → B)
    (m : List (DKey × Val I B)) : List (DKey × Val I B) :=
  m.map fun p =>
    match p.2 with
    | Val.list xs =>
        if p.1 = DKey.str INFOS then p else (p.1, Val.batched (batchF xs))
    | _ => p

/-- Lines 65-67: make sure `DEFAULT_POLICY_ID` is a key of `data`
(`data[DEFAULT_POLICY_ID] = \x7b\x7d` when absent), then `data.pop(column)`.
This is the state of `data` right before the subscript assignment of
line 68. -/
def marlMoveData2 {I B : Type} (column : Col) (data1 : List (Col × Val I B)) :
    List (Col × Val I B) :=
  popA column
    (if memA DEFAULT_POLICY_ID data1 then data1
     else data1 ++ [(DEFAULT_POLICY_ID, Val.dict [])])

/-- Lines 65-68: `data[DEFAULT_POLICY_ID][column] = data.pop(column)`, with
`data[DEFAULT_POLICY_ID] = \x7b\x7d` inserted first when the key is absent.
`newVal` is the value just stored at `column` (what `pop` returns).  If the
entry at `DEFAULT_POLICY_ID` is not a dict after the pop, the subscript
assignment fails. -/
def marlMove {I B : Type} (column : Col) (newVal : Val I B)
    (data1 : List (Col × Val I B)) : Except Err (List (Col × Val I B)) :=
  match lookupA DEFAULT_POLICY_ID (marlMoveData2 column data1) with
  | some (Val.dict dm) =>
      .ok (setA DEFAULT_POLICY_ID
        (Val.dict (setA (DKey.str column) newVal dm))
        (marlMoveData2 column data1))
  | _ => .error .typeError

/-- The shared-data dict; only the `"memorized_map_structure"` key is ever
written by this connector. -/
abbrev Shared := List (String × List EpsId)

/-- The mutable state of one `__call__`: the `data` dict and `shared_data`. -/
structure CallState (I B : Type) where
  data : List (Col × Val I B)
  shared : Shared

/-- Lines 59-64: the value stored at `column` — the plain concatenated list
for `"infos"`, the batched concatenation otherwise. -/
def saNewVal {I B : Type} (batchF : List I → B) (column : Col)
    (es : List (EpsId × List I)) : Val I B :=
  if column = INFOS then Val.list (concatItems es)
  else Val.batched (batchF (concatItems es))

/-- Lines 70-72: `shared_data["memorized_map_structure"]` is written only
while processing the `OBS` column. -/
def saShared {I : Type} (column : Col) (es : List (EpsId × List I))
    (shared : Shared) : Shared :=
  if column = OBS then setA "memorized_map_structure" (obsStructure es) shared
  else shared

/-- Lines 49-72, the single-agent branch for one column: concatenate the
per-episode lists in key order, store the plain list for `"infos"` and the
batched list otherwise, move the column under `DEFAULT_POLICY_ID` when the
RL module is multi-agent, and record the map structure in `shared_data`
for the `"obs"` column. -/
def singleAgentColumn {I B : Type} (batchF : List I → B)
    (is_marl_module : Bool) (st : CallState I B) (column : Col)
    (m : List (DKey × Val I B)) : Except Err (CallState I B) :=
  match epsEntries m with
  | .error e => .error e
  | .ok es =>
      match (if is_marl_module then
               marlMove column (saNewVal batchF column es)
                 (setA column (saNewVal batchF column es) st.data)
             else .ok (setA column (saNewVal batchF column es) st.data)) with
      | .error e => .error e
      | .ok data2 => .ok ⟨data2, saShared column es st.shared⟩

/-- The body of the `for column, column_data in data.copy().items()` loop
(lines 29-79) for one column, mirroring the `if`/`elif` chain:
module column of a multi-agent RL module first (with its `assert`), then
the plain-list case, then the single-agent episode-dict case, and
`NotImplementedError` otherwise. -/
def processColumn {I B : Type} (batchF : List I → B)
    (is_multi_agent is_marl_module : Bool) (moduleIds : List Col)
    (st : CallState I B) (column : Col) (column_data : Val I B) :
    Except Err (CallState I B) :=
  if is_marl_module && moduleIds.contains column then
    if !is_multi_agent then .error .assertionError
    else
      match column_data with
      | Val.dict m =>
          .ok { st with
            data := setA column (Val.dict (marlModuleData batchF m)) st.data }
      | _ => .error .typeError
  else
    match column_data with
    | Val.list xs =>
        .ok { st with data := setA column (Val.batched (batchF xs)) st.data }
    | Val.dict m =>
        if is_multi_agent then .error .notImplemented
        else singleAgentColumn batchF is_marl_module st column m
    | Val.batched _ =>
        if is_multi_agent then .error .notImplemented
        else .error .typeError

/-- `BatchIndividualItems.__call__`: iterate over a copy of the `data` items
(insertion order) while mutating the `data`/`shared_data` state.
`is_multi_agent` is `isinstance(episodes[0], MultiAgentEpisode)`,
`is_marl_module` is `isinstance(rl_module, MultiAgentRLModule)`, and
`moduleIds` are the module ids of `rl_module` (the `column in rl_module`
test). -/
def batchIndividualItems {I B : Type} (batchF : List I → B)
    (is_multi_agent is_marl_module : Bool) (moduleIds : List Col)
    (data : List (Col × Val I B)) (shared_data : Shared) :
    Except Err (CallState I B) :=
  data.foldlM
    (fun st p => processColumn batchF is_multi_agent is_marl_module moduleIds st p.1 p.2)
    ⟨data, shared_data⟩

/-! #### Lemmas about the dict operations -/

theorem lookupA_setA_self {α β : Type _} [DecidableEq α] (k : α) (v : β)
    (l : List (α × β)) : lookupA k (setA k v l) = some v := by
  induction l with
  | nil => simp [setA, lookupA]
  | cons p rest ih =>
      by_cases h : k = p.1 <;> simp [setA, lookupA, h, ih]

theorem lookupA_setA_ne {α β : Type _} [DecidableEq α] {k k' : α} (v : β)
    (l : List (α × β)) (h : k ≠ k') :
    lookupA k (setA k' v l) = lookupA k l := by
  induction l with
  | nil => simp [setA, lookupA, h]
  | cons p rest ih =>
      by_cases h' : k' = p.1
      · subst h'; simp [setA, lookupA, h]
      · by_cases h'' : k = p.1 <;> simp [setA, lookupA, h', h'', ih]

theorem lookupA_popA_ne {α β : Type _} [DecidableEq α] {k k' : α}
    (l : List (α × β)) (h : k ≠ k') :
    lookupA k (popA k' l) = lookupA k l := by
  induction l with
  | nil => simp [popA]
  | cons p rest ih =>
      by_cases h' : k' = p.1
      · subst h'; simp [popA, lookupA, h]
      · by_cases h'' : k = p.1 <;> simp [popA, lookupA, h', h'', ih]

theorem lookupA_append {α β : Type _} [DecidableEq α] (k : α)
    (l₁ l₂ : List (α × β)) :
    lookupA k (l₁ ++ l₂) =
      ((lookupA k l₁).rec (lookupA k l₂) fun v => some v : Option β) := by
  induction l₁ with
  | nil => simp [lookupA]
  | cons p rest ih =>
      by_cases h : k = p.1 <;> simp [lookupA, h, ih]

theorem lookupA_append_right_none {α β : Type _} [DecidableEq α] {k : α}
    {l₂ : List (α × β)} (l₁ : List (α × β)) (h : lookupA k l₂ = none) :
    lookupA k (l₁ ++ l₂) = lookupA k l₁ := by
  induction l₁ with
  | nil => simpa [lookupA] using h
  | cons p rest ih =>
      by_cases h' : k = p.1 <;> simp [lookupA, h', ih]

/-! #### Inversion of `Except` binds and fold decomposition -/

theorem except_bind_ok {ε α β : Type _} {x : Except ε α} {f : α → Except ε β}
    {b : β} (h : x >>= f = .ok b) : ∃ a, x = .ok a ∧ f a = .ok b := by
  cases x with
  | error e => simp [Bind.bind, Except.bind] at h
  | ok a => exact ⟨a, rfl, by simpa [Bind.bind, Except.bind] using h⟩

/-- A property of the state preserved by every successful step is preserved
by a successful `foldlM` over the whole list. -/
theorem foldlM_ok_preserve {σ α ε : Type _} (f : σ → α → Except ε σ)
    (P : σ → Prop) :
    ∀ (l : List α) (s s' : σ),
      (∀ t a t', a ∈ l → P t → f t a = .ok t' → P t') →
      l.foldlM f s = .ok s' → P s → P s' := by
  intro l
  induction l with
  | nil =>
      intro s s' _ hfold hP
      simp only [List.foldlM_nil] at hfold
      cases hfold
      exact hP
  | cons a rest ih =>
      intro s s' hstep hfold hP
      simp only [List.foldlM_cons] at hfold
      obtain ⟨t, hft, hrest⟩ := except_bind_ok hfold
      exact ih t s' (fun u b u' hb => hstep u b u' (List.mem_cons_of_mem _ hb))
        hrest (hstep s a t (List.mem_cons_self _ _) hP hft)

/-- Splitting a successful `foldlM` at a distinguished element of the list:
the folds over the prefix and the suffix and the step at the element all
succeed, and with `Nodup` keys the element's key occurs in neither part. -/
theorem call_decompose {I B : Type} {batchF : List I → B} {ma marl : Bool}
    {mids : List Col} {data : List (Col × Val I B)} {shared : Shared}
    {c : Col} {v : Val I B} {st' : CallState I B}
    (hnd : (data.map Prod.fst).Nodup) (hmem : (c, v) ∈ data)
    (hok : batchIndividualItems batchF ma marl mids data shared = .ok st') :
    ∃ (st₁ st₂ : CallState I B) (pre post : List (Col × Val I B)),
      data = pre ++ (c, v) :: post ∧
      pre.foldlM (fun st p => processColumn batchF ma marl mids st p.1 p.2)
        ⟨data, shared⟩ = .ok st₁ ∧
      processColumn batchF ma marl mids st₁ c v = .ok st₂ ∧
      post.foldlM (fun st p => processColumn batchF ma marl mids st p.1 p.2)
        st₂ = .ok st' ∧
      c ∉ pre.map Prod.fst ∧ c ∉ post.map Prod.fst := by
  obtain ⟨pre, post, rfl⟩ := List.append_of_mem hmem
  have hmap : ((pre ++ (c, v) :: post).map Prod.fst) =
      pre.map Prod.fst ++ c :: post.map Prod.fst := by simp
  rw [hmap] at hnd
  rw [List.nodup_append] at hnd
  obtain ⟨-, hnd₂, hdisj⟩ := hnd
  have hcpre : c ∉ pre.map Prod.fst := fun hc =>
    hdisj hc (List.mem_cons_self _ _)
  have hcpost : c ∉ post.map Prod.fst := (List.nodup_cons.mp hnd₂).1
  unfold batchIndividualItems at hok
  rw [List.foldlM_append] at hok
  obtain ⟨st₁, h₁, h₂⟩ := except_bind_ok hok
  simp only [List.foldlM_cons] at h₂
  obtain ⟨st₂, h₃, h₄⟩ := except_bind_ok h₂
  exact ⟨st₁, st₂, pre, post, rfl, h₁, h₃, h₄, hcpre, hcpost⟩

/-! #### Preservation lemmas: what one loop iteration does to the entries of
other columns -/

theorem marlMoveData2_lookup_ne {I B : Type} {column c : Col}
    {data1 : List (Col × Val I B)} (hc : c ≠ column)
    (hd : c ≠ DEFAULT_POLICY_ID) :
    lookupA c (marlMoveData2 column data1) = lookupA c data1 := by
  unfold marlMoveData2
  rw [lookupA_popA_ne _ hc]
  by_cases hm : memA DEFAULT_POLICY_ID data1
  · rw [if_pos hm]
  · rw [if_neg hm, lookupA_append_right_none _ (by simp [lookupA, hd])]

theorem marlMove_lookup_ne {I B : Type} {column c : Col} {newVal : Val I B}
    {data1 res : List (Col × Val I B)}
    (hok : marlMove column newVal data1 = .ok res)
    (hc : c ≠ column) (hd : c ≠ DEFAULT_POLICY_ID) :
    lookupA c res = lookupA c data1 := by
  unfold marlMove at hok
  split at hok
  · cases hok
    rw [lookupA_setA_ne _ _ hd, marlMoveData2_lookup_ne hc hd]
  · simp at hok

theorem marlMove_lookup_batched {I B : Type} {column c : Col}
    {newVal : Val I B} {b : B} {data1 res : List (Col × Val I B)}
    (hok : marlMove column newVal data1 = .ok res) (hc : c ≠ column)
    (hlk : lookupA c data1 = some (Val.batched b)) :
    lookupA c res = some (Val.batched b) := by
  by_cases hd : c = DEFAULT_POLICY_ID
  · subst hd
    have h2 : lookupA DEFAULT_POLICY_ID (marlMoveData2 column data1) =
        some (Val.batched b) := by
      unfold marlMoveData2
      rw [lookupA_popA_ne _ hc, if_pos (by simp [memA, hlk])]
      exact hlk
    unfold marlMove at hok
    split at hok
    · next dm heq => exact Val.noConfusion (Option.some.inj (h2.symm.trans heq))
    · simp at hok
  · rw [marlMove_lookup_ne hok hc hd]; exact hlk

theorem processColumn_lookup_ne {I B : Type} {batchF : List I → B}
    {ma marl : Bool} {mids : List Col} {st st₂ : CallState I B}
    {col c : Col} {v : Val I B}
    (hok : processColumn batchF ma marl mids st col v = .ok st₂)
    (hc : c ≠ col) (hd : c ≠ DEFAULT_POLICY_ID) :
    lookupA c st₂.data = lookupA c st.data := by
  unfold processColumn at hok
  split at hok
  · split at hok
    · simp at hok
    · split at hok
      · cases hok
        exact lookupA_setA_ne _ _ hc
      · simp at hok
  · split at hok
    · cases hok
      exact lookupA_setA_ne _ _ hc
    · split at hok
      · simp at hok
      · unfold singleAgentColumn at hok
        split at hok
        · simp at hok
        · split at hok
          · simp at hok
          · next data2 heq =>
              cases hok
              split at heq
              · exact (marlMove_lookup_ne heq hc hd).trans
                  (lookupA_setA_ne _ _ hc)
              · cases heq
                exact lookupA_setA_ne _ _ hc
    · split at hok <;> simp at hok

theorem processColumn_preserve_batched {I B : Type} {batchF : List I → B}
    {ma marl : Bool} {mids : List Col} {st st₂ : CallState I B}
    {col c : Col} {v : Val I B} {b : B}
    (hok : processColumn batchF ma marl mids st col v = .ok st₂)
    (hc : c ≠ col) (hlk : lookupA c st.data = some (Val.batched b)) :
    lookupA c st₂.data = some (Val.batched b) := by
  unfold processColumn at hok
  split at hok
  · split at hok
    · simp at hok
    · split at hok
      · cases hok
        rw [lookupA_setA_ne _ _ hc]; exact hlk
      · simp at hok
  · split at hok
    · cases hok
      rw [lookupA_setA_ne _ _ hc]; exact hlk
    · split at hok
      · simp at hok
      · unfold singleAgentColumn at hok
        split at hok
        · simp at hok
        · split at hok
          · simp at hok
          · next data2 heq =>
              cases hok
              split at heq
              · exact marlMove_lookup_batched heq hc
                  ((lookupA_setA_ne _ _ hc).trans hlk)
              · cases heq
                rw [lookupA_setA_ne _ _ hc]; exact hlk
    · split at hok <;> simp at hok

theorem processColumn_lookup_ne_ma {I B : Type} {batchF : List I → B}
    {marl : Bool} {mids : List Col} {st st₂ : CallState I B}
    {col c : Col} {v : Val I B}
    (hok : processColumn batchF true marl mids st col v = .ok st₂)
    (hc : c ≠ col) :
    lookupA c st₂.data = lookupA c st.data := by
  unfold processColumn at hok
  split at hok
  · split at hok
    · simp at hok
    · split at hok
      · cases hok
        exact lookupA_setA_ne _ _ hc
      · simp at hok
  · split at hok
    · cases hok
      exact lookupA_setA_ne _ _ hc
    · rw [if_pos rfl] at hok
      simp at hok
    · rw [if_pos rfl] at hok
      simp at hok

theorem processColumn_lookup_ne_nomarl {I B : Type} {batchF : List I → B}
    {ma : Bool} {mids : List Col} {st st₂ : CallState I B}
    {col c : Col} {v : Val I B}
    (hok : processColumn batchF ma false mids st col v = .ok st₂)
    (hc : c ≠ col) :
    lookupA c st₂.data = lookupA c st.data := by
  unfold processColumn at hok
  rw [if_neg (by simp)] at hok
  split at hok
  · cases hok
    exact lookupA_setA_ne _ _ hc
  · split at hok
    · simp at hok
    · unfold singleAgentColumn at hok
      split at hok
      · simp at hok
      · split at hok
        · simp at hok
        · next data2 heq =>
            cases hok
            rw [if_neg (by simp)] at heq
            cases heq
            exact lookupA_setA_ne _ _ hc
  · split at hok <;> simp at hok

theorem processColumn_shared_ne_obs {I B : Type} {batchF : List I → B}
    {ma marl : Bool} {mids : List Col} {st st₂ : CallState I B}
    {col : Col} {v : Val I B}
    (hok : processColumn batchF ma marl mids st col v = .ok st₂)
    (hc : col ≠ OBS) : st₂.shared = st.shared := by
  unfold processColumn at hok
  split at hok
  · split at hok
    · simp at hok
    · split at hok
      · cases hok; rfl
      · simp at hok
  · split at hok
    · cases hok; rfl
    · split at hok
      · simp at hok
      · unfold singleAgentColumn at hok
        split at hok
        · simp at hok
        · split at hok
          · simp at hok
          · cases hok
            simp [saShared, hc]
    · split at hok <;> simp at hok

theorem processColumn_shared_obs {I B : Type} {batchF : List I → B}
    {marl : Bool} {mids : List Col} {st st₂ : CallState I B}
    {m : List (DKey × Val I B)} {es : List (EpsId × List I)}
    (hok : processColumn batchF false marl mids st OBS (Val.dict m) = .ok st₂)
    (hes : epsEntries m = .ok es) :
    st₂.shared = setA "memorized_map_structure" (obsStructure es) st.shared := by
  unfold processColumn at hok
  split at hok
  · rw [if_pos (by simp)] at hok
    simp at hok
  · split at hok
    · next xs heq => exact Val.noConfusion heq
    · next m' heq =>
        injection heq with h
        subst h
        rw [if_neg (by simp)] at hok
        unfold singleAgentColumn at hok
        split at hok
        · next heq2 => rw [hes] at heq2; exact Except.noConfusion heq2
        · next es' heq2 =>
            rw [hes] at heq2
            injection heq2 with h2
            subst h2
            split at hok
            · simp at hok
            · cases hok
              simp [saShared, OBS]
    · next b heq => exact Val.noConfusion heq

/-! #### What one loop iteration does to the processed column itself -/

theorem processColumn_sa_dict {I B : Type} {batchF : List I → B}
    {mids : List Col} {st : CallState I B} {col : Col}
    {m : List (DKey × Val I B)} {es : List (EpsId × List I)}
    (hes : epsEntries m = .ok es) :
    processColumn batchF false false mids st col (Val.dict m) =
      .ok ⟨setA col (saNewVal batchF col es) st.data,
        saShared col es st.shared⟩ := by
  simp [processColumn, singleAgentColumn, hes]

theorem processColumn_list {I B : Type} {batchF : List I → B} {ma marl : Bool}
    {mids : List Col} {st : CallState I B} {col : Col} {xs : List I}
    (hnm : (marl && mids.contains col) = false) :
    processColumn batchF ma marl mids st col (Val.list xs) =
      .ok ⟨setA col (Val.batched (batchF xs)) st.data, st.shared⟩ := by
  unfold processColumn
  rw [if_neg (by rw [hnm]; simp)]

theorem processColumn_marl_dict {I B : Type} {batchF : List I → B}
    {mids : List Col} {st : CallState I B} {col : Col}
    {m : List (DKey × Val I B)} (hin : mids.contains col = true) :
    processColumn batchF true true mids st col (Val.dict m) =
      .ok ⟨setA col (Val.dict (marlModuleData batchF m)) st.data, st.shared⟩ := by
  unfold processColumn
  rw [if_pos (by rw [Bool.true_and, hin])]
  rfl

/-- C1 (corrected): in the single-agent case with a single-agent RL module,
every column other than `"infos"` whose value is a mapping from episode-id
keys to lists of per-episode items is replaced by the result of batching
the concatenation of all per-episode lists, episodes in the order of the
mapping's keys, items in list order. -/
theorem c1_theorem {I B : Type} (batchF : List I → B) (mids : List Col)
    (data : List (Col × Val I B)) (shared : Shared) (c : Col)
    (m : List (DKey × Val I B)) (es : List (EpsId × List I))
    (st' : CallState I B)
    (hnd : (data.map Prod.fst).Nodup)
    (hmem : (c, Val.dict m) ∈ data)
    (hc : c ≠ INFOS)
    (hes : epsEntries m = .ok es)
    (hok : batchIndividualItems batchF false false mids data shared = .ok st') :
    lookupA c st'.data = some (Val.batched (batchF (concatItems es))) := by
  obtain ⟨st₁, st₂, pre, post, hdata, hpre, hstep, hpost, hcpre, hcpost⟩ :=
    call_decompose hnd hmem hok
  rw [processColumn_sa_dict hes] at hstep
  cases hstep
  have h2 : lookupA c
      (setA c (saNewVal batchF c es) st₁.data) =
      some (Val.batched (batchF (concatItems es))) := by
    rw [lookupA_setA_self, saNewVal, if_neg hc]
  refine foldlM_ok_preserve _
    (fun st => lookupA c st.data = some (Val.batched (batchF (concatItems es))))
    post _ st' ?_ hpost h2
  intro t p t' hp hP hs
  exact processColumn_preserve_batched hs
    (fun h => hcpost (h ▸ List.mem_map_of_mem Prod.fst hp)) hP

/-- C1, the claim as stated, is false at the `"infos"` column: for
`data = [("infos", dict [(("e0",), [7])])]` in the single-agent case the
call replaces the column with the plain concatenated list `[7]`, which is
not a batched value (`batch` is never applied to it). -/
theorem c1_counterexample :
    batchIndividualItems (fun xs : List Nat => xs.sum) false false []
        [("infos", Val.dict [(DKey.tup "e0", Val.list [7])])] [] =
      .ok ⟨[("infos", Val.list ([7] : List Nat))], ([] : Shared)⟩ ∧
    Val.isBatched (Val.list ([7] : List Nat) : Val Nat Nat) = false :=
  ⟨rfl, rfl⟩

/-- Witness for `c1_theorem` at a concrete input. -/
theorem c1_witness :
    lookupA "a" [("a", (Val.batched 6 : Val Nat Nat))] = some (Val.batched 6) :=
  c1_theorem List.sum []
    [("a", Val.dict [(DKey.tup "e1", Val.list [1, 2]), (DKey.tup "e2", Val.list [3])])]
    [] "a" [(DKey.tup "e1", Val.list [1, 2]), (DKey.tup "e2", Val.list [3])]
    [("e1", [1, 2]), ("e2", [3])] ⟨[("a", Val.batched 6)], []⟩
    (by decide) (List.mem_singleton.mpr rfl) (by decide) rfl rfl

/-- Inside a module's sub-dict, the transformation of lines 37-39 leaves the
entry under the `"infos"` key untouched. -/
theorem marlModuleData_infos {I B : Type} (batchF : List I → B)
    (m : List (DKey × Val I B)) :
    lookupA (DKey.str INFOS) (marlModuleData batchF m) =
      lookupA (DKey.str INFOS) m := by
  induction m with
  | nil => rfl
  | cons p rest ih =>
      obtain ⟨k, w⟩ := p
      by_cases hk : k = DKey.str INFOS
      · subst hk
        cases w <;> simp [marlModuleData, lookupA, ih]
      · have hk' : ¬(DKey.str INFOS = k) := fun h => hk h.symm
        cases w <;> simp [marlModuleData, lookupA, hk, hk'] <;>
          simpa [marlModuleData] using ih

/-- C3: the `"infos"` column is the one column that is never batched.
First conjunct (single-agent case, single-agent RL module): the `"infos"`
column is replaced by the plain concatenated list of per-episode items —
`batch` is not applied.  Second conjunct (multi-agent-module case): a module
column is replaced by its transformed sub-dict, and that transformation
leaves the sub-dict's `"infos"` entry unchanged. -/
theorem c3_theorem {I B : Type} (batchF : List I → B) :
    (∀ (mids : List Col) (data : List (Col × Val I B)) (shared : Shared)
        (m : List (DKey × Val I B)) (es : List (EpsId × List I))
        (st' : CallState I B),
        (data.map Prod.fst).Nodup → (INFOS, Val.dict m) ∈ data →
        epsEntries m = .ok es →
        batchIndividualItems batchF false false mids data shared = .ok st' →
        lookupA INFOS st'.data = some (Val.list (concatItems es))) ∧
    (∀ (mids : List Col) (data : List (Col × Val I B)) (shared : Shared)
        (c : Col) (m : List (DKey × Val I B)) (st' : CallState I B),
        (data.map Prod.fst).Nodup → (c, Val.dict m) ∈ data →
        mids.contains c = true →
        batchIndividualItems batchF true true mids data shared = .ok st' →
        lookupA c st'.data = some (Val.dict (marlModuleData batchF m)) ∧
        lookupA (DKey.str INFOS) (marlModuleData batchF m) =
          lookupA (DKey.str INFOS) m) := by
  constructor
  · intro mids data shared m es st' hnd hmem hes hok
    obtain ⟨st₁, st₂, pre, post, hdata, hpre, hstep, hpost, hcpre, hcpost⟩ :=
      call_decompose hnd hmem hok
    rw [processColumn_sa_dict hes] at hstep
    cases hstep
    have h2 : lookupA INFOS
        (setA INFOS (saNewVal batchF INFOS es) st₁.data) =
        some (Val.list (concatItems es)) := by
      rw [lookupA_setA_self, saNewVal, if_pos rfl]
    refine foldlM_ok_preserve _
      (fun st => lookupA INFOS st.data = some (Val.list (concatItems es)))
      post _ st' ?_ hpost h2
    intro t p t' hp hP hs
    rw [processColumn_lookup_ne_nomarl hs
      (fun h => hcpost (List.mem_map.mpr ⟨p, hp, h.symm⟩))]
    exact hP
  · intro mids data shared c m st' hnd hmem hin hok
    refine ⟨?_, marlModuleData_infos batchF m⟩
    obtain ⟨st₁, st₂, pre, post, hdata, hpre, hstep, hpost, hcpre, hcpost⟩ :=
      call_decompose hnd hmem hok
    rw [processColumn_marl_dict hin] at hstep
    cases hstep
    refine foldlM_ok_preserve _
      (fun st => lookupA c st.data = some (Val.dict (marlModuleData batchF m)))
      post _ st' ?_ hpost (lookupA_setA_self _ _ _)
    intro t p t' hp hP hs
    rw [processColumn_lookup_ne_ma hs
      (fun h => hcpost (List.mem_map.mpr ⟨p, hp, h.symm⟩))]
    exact hP

/-- Witness for `c3_theorem` at concrete inputs for both conjuncts. -/
theorem c3_witness :
    lookupA "infos" [("infos", (Val.list [7] : Val Nat Nat))] =
      some (Val.list [7]) ∧
    (lookupA "m1"
        [("m1", Val.dict
          [(DKey.str "obs", (Val.batched 1 : Val Nat Nat)),
           (DKey.str "infos", Val.list [9])])] =
      some (Val.dict (marlModuleData List.sum
        [(DKey.str "obs", Val.list [1]), (DKey.str "infos", Val.list [9])])) ∧
     lookupA (DKey.str INFOS) (marlModuleData List.sum
        [(DKey.str "obs", (Val.list [1] : Val Nat Nat)),
         (DKey.str "infos", Val.list [9])]) =
      lookupA (DKey.str INFOS)
        [(DKey.str "obs", (Val.list [1] : Val Nat Nat)),
         (DKey.str "infos", Val.list [9])]) :=
  ⟨(c3_theorem List.sum).1 []
      [("infos", Val.dict [(DKey.tup "e0", Val.list [7])])] []
      [(DKey.tup "e0", Val.list [7])] [("e0", [7])]
      ⟨[("infos", Val.list [7])], []⟩
      (by decide) (List.mem_singleton.mpr rfl) rfl rfl,
   (c3_theorem List.sum).2 ["m1"]
      [("m1", Val.dict
        [(DKey.str "obs", Val.list [1]), (DKey.str "infos", Val.list [9])])] []
      "m1" [(DKey.str "obs", Val.list [1]), (DKey.str "infos", Val.list [9])]
      ⟨[("m1", Val.dict
        [(DKey.str "obs", Val.batched 1), (DKey.str "infos", Val.list [9])])], []⟩
      (by decide) (List.mem_singleton.mpr rfl) rfl rfl⟩

/-- C7: every column whose value is directly a list — and which is not a
module column of a multi-agent RL module — is replaced by the batched form
of exactly that list, in every case (single- or multi-agent episodes,
single- or multi-agent RL module). -/
theorem c7_theorem {I B : Type} (batchF : List I → B) (ma marl : Bool)
    (mids : List Col) (data : List (Col × Val I B)) (shared : Shared)
    (c : Col) (xs : List I) (st' : CallState I B)
    (hnd : (data.map Prod.fst).Nodup)
    (hmem : (c, Val.list xs) ∈ data)
    (hnm : (marl && mids.contains c) = false)
    (hok : batchIndividualItems batchF ma marl mids data shared = .ok st') :
    lookupA c st'.data = some (Val.batched (batchF xs)) := by
  obtain ⟨st₁, st₂, pre, post, hdata, hpre, hstep, hpost, hcpre, hcpost⟩ :=
    call_decompose hnd hmem hok
  rw [processColumn_list hnm] at hstep
  cases hstep
  refine foldlM_ok_preserve _
    (fun st => lookupA c st.data = some (Val.batched (batchF xs)))
    post _ st' ?_ hpost (lookupA_setA_self _ _ _)
  intro t p t' hp hP hs
  exact processColumn_preserve_batched hs
    (fun h => hcpost (h ▸ List.mem_map_of_mem Prod.fst hp)) hP

/-- Witness for `c7_theorem` at a concrete input (multi-agent episodes,
single-agent RL module). -/
theorem c7_witness :
    lookupA "lst" [("lst", (Val.batched 9 : Val Nat Nat))] =
      some (Val.batched 9) :=
  c7_theorem List.sum true false [] [("lst", Val.list [4, 5])] [] "lst" [4, 5]
    ⟨[("lst", Val.batched 9)], []⟩
    (by decide) (List.mem_singleton.mpr rfl) rfl rfl

/-- With multi-agent episodes, every loop iteration either succeeds (module
columns whose value is a dict, and plain-list columns) or raises
`NotImplementedError`; so if some column is neither, the call raises
`NotImplementedError`. -/
theorem ma_fold_error {I B : Type} (batchF : List I → B) (marl : Bool)
    (mids : List Col) :
    ∀ (its : List (Col × Val I B)) (st : CallState I B),
      (∀ p ∈ its, (marl && mids.contains p.1) = true → (p.2).isDict = true) →
      (∃ p ∈ its, ¬((marl && mids.contains p.1) = true) ∧ (p.2).isList = false) →
      its.foldlM
        (fun st p => processColumn batchF true marl mids st p.1 p.2) st =
        .error .notImplemented := by
  intro its
  induction its with
  | nil =>
      intro st _ hex
      simp at hex
  | cons q rest ih =>
      intro st hmod hex
      obtain ⟨p, hp, hnp, hnl⟩ := hex
      simp only [List.foldlM_cons]
      by_cases hq : (marl && mids.contains q.1) = true
      · have hd := hmod q (List.mem_cons_self _ _) hq
        cases hval : q.2 with
        | list xs => rw [hval] at hd; simp [Val.isDict] at hd
        | batched b => rw [hval] at hd; simp [Val.isDict] at hd
        | dict m =>
            have hstep : processColumn batchF true marl mids st q.1
                (Val.dict m) =
                .ok ⟨setA q.1 (Val.dict (marlModuleData batchF m)) st.data,
                  st.shared⟩ := by
              unfold processColumn; rw [if_pos hq]; rfl
            rw [hstep]
            show rest.foldlM _ _ = _
            refine ih _ (fun r hr => hmod r (List.mem_cons_of_mem _ hr)) ?_
            rcases List.mem_cons.mp hp with rfl | hp'
            · exact absurd hq hnp
            · exact ⟨p, hp', hnp, hnl⟩
      · have hnm : (marl && mids.contains q.1) = false := Bool.eq_false_iff.mpr hq
        cases hval : q.2 with
        | list xs =>
            have hstep : processColumn batchF true marl mids st q.1
                (Val.list xs) =
                .ok ⟨setA q.1 (Val.batched (batchF xs)) st.data, st.shared⟩ :=
              processColumn_list hnm
            rw [hstep]
            show rest.foldlM _ _ = _
            refine ih _ (fun r hr => hmod r (List.mem_cons_of_mem _ hr)) ?_
            rcases List.mem_cons.mp hp with rfl | hp'
            · rw [hval] at hnl; simp [Val.isList] at hnl
            · exact ⟨p, hp', hnp, hnl⟩
        | dict m =>
            have hstep : processColumn batchF true marl mids st q.1
                (Val.dict m) = .error .notImplemented := by
              unfold processColumn; rw [if_neg hq]; rfl
            rw [hstep]; rfl
        | batched b =>
            have hstep : processColumn batchF true marl mids st q.1
                (Val.batched b) = .error .notImplemented := by
              unfold processColumn; rw [if_neg hq]; rfl
            rw [hstep]; rfl

/-- C9: with multi-agent episodes, any column whose value is not a list and
which is not a module column of a multi-agent RL module makes the call raise
`NotImplementedError` (assuming the module columns hold the dict structure
the `AgentToModuleMapping` connector produces, so that no iteration fails
earlier for a different reason). -/
theorem c9_theorem {I B : Type} (batchF : List I → B) (marl : Bool)
    (mids : List Col) (data : List (Col × Val I B)) (shared : Shared)
    (c : Col) (v : Val I B)
    (hmod : ∀ p ∈ data, (marl && mids.contains p.1) = true →
      (p.2).isDict = true)
    (hmem : (c, v) ∈ data)
    (hnm : ¬((marl && mids.contains c) = true))
    (hv : v.isList = false) :
    batchIndividualItems batchF true marl mids data shared =
      .error .notImplemented := by
  unfold batchIndividualItems
  exact ma_fold_error batchF marl mids data _ hmod ⟨(c, v), hmem, hnm, hv⟩

/-- Witness for `c9_theorem` at a concrete input: multi-agent episodes with
a single-agent RL module and a dict-valued column. -/
theorem c9_witness :
    batchIndividualItems List.sum true false []
        [("x", (Val.dict [] : Val Nat Nat))] [] =
      .error .notImplemented :=
  c9_theorem List.sum false [] [("x", Val.dict [])] [] "x" (Val.dict [])
    (by intro p hp h; simp at h) (List.mem_singleton.mpr rfl) (by simp) rfl

/-- C10: in the single-agent case, `shared_data["memorized_map_structure"]`
is written only while processing the `"obs"` column — if no column is named
`"obs"`, `shared_data` is returned unchanged — and the value written is the
list of episode ids with one entry per observation item, in concatenation
order. -/
theorem c10_theorem {I B : Type} (batchF : List I → B) (marl : Bool)
    (mids : List Col) (data : List (Col × Val I B)) (shared : Shared)
    (st' : CallState I B)
    (hok : batchIndividualItems batchF false marl mids data shared = .ok st') :
    (OBS ∉ data.map Prod.fst → st'.shared = shared) ∧
    (∀ (m : List (DKey × Val I B)) (es : List (EpsId × List I)),
      (data.map Prod.fst).Nodup → (OBS, Val.dict m) ∈ data →
      epsEntries m = .ok es →
      st'.shared = setA "memorized_map_structure" (obsStructure es) shared) := by
  constructor
  · intro hobs
    unfold batchIndividualItems at hok
    refine foldlM_ok_preserve _ (fun st => st.shared = shared) data _ st'
      ?_ hok rfl
    intro t p t' hp hP hs
    rw [processColumn_shared_ne_obs hs
      (fun h => hobs (List.mem_map.mpr ⟨p, hp, h⟩))]
    exact hP
  · intro m es hnd hmem hes
    obtain ⟨st₁, st₂, pre, post, hdata, hpre, hstep, hpost, hcpre, hcpost⟩ :=
      call_decompose hnd hmem hok
    have h1 : st₁.shared = shared := by
      refine foldlM_ok_preserve _ (fun st => st.shared = shared) pre _ st₁
        ?_ hpre rfl
      intro t p t' hp hP hs
      rw [processColumn_shared_ne_obs hs
        (fun h => hcpre (List.mem_map.mpr ⟨p, hp, h⟩))]
      exact hP
    have h2 : st₂.shared =
        setA "memorized_map_structure" (obsStructure es) shared := by
      rw [processColumn_shared_obs hstep hes, h1]
    refine foldlM_ok_preserve _
      (fun st => st.shared =
        setA "memorized_map_structure" (obsStructure es) shared)
      post _ st' ?_ hpost h2
    intro t p t' hp hP hs
    rw [processColumn_shared_ne_obs hs
      (fun h => hcpost (List.mem_map.mpr ⟨p, hp, h⟩))]
    exact hP

/-- Witness for `c10_theorem` at a concrete input (second conjunct). -/
theorem c10_witness :
    (⟨[("obs", (Val.batched 6 : Val Nat Nat))],
      [("memorized_map_structure", ["e1", "e1", "e2"])]⟩ :
        CallState Nat Nat).shared =
      setA "memorized_map_structure"
        (obsStructure [("e1", [1, 2]), ("e2", ([3] : List Nat))]) [] := by
  have hok : batchIndividualItems List.sum false false []
      [("obs", Val.dict
        [(DKey.tup "e1", Val.list [1, 2]), (DKey.tup "e2", Val.list [3])])]
      [] =
    Except.ok ⟨[("obs", Val.batched 6)],
      [("memorized_map_structure", ["e1", "e1", "e2"])]⟩ := rfl
  exact (c10_theorem List.sum false []
    [("obs", Val.dict
      [(DKey.tup "e1", Val.list [1, 2]), (DKey.tup "e2", Val.list [3])])]
    [] ⟨[("obs", Val.batched 6)],
      [("memorized_map_structure", ["e1", "e1", "e2"])]⟩
    hok).2
    [(DKey.tup "e1", Val.list [1, 2]), (DKey.tup "e2", Val.list [3])]
    [("e1", [1, 2]), ("e2", [3])]
    (by decide) (List.mem_singleton.mpr rfl) rfl

end Rllib
